import Mathlib

/-!
Verification of the busticketfinder monitoring core.

The definitions below are a shallow embedding of the Python sources:
`bot.py` (time parsing, window matching, fingerprinting, the per-subscription
notification decision of `checker_loop`), `data.py` (the JSON-file store and
`del_sub`), and `infobus_client.py` (session freshness, cookie lookup, the
transport retry loop and the auth-retry control flow of `get_routes`).
Effectful code is embedded by explicit state passing; the network is an
oracle giving the outcome of each request.
-/

/-- Model of the regex `^(\d{1,2}):(\d{2})$` used by `hhmm_to_int` in
`bot.py`: on a match, returns the numeric values of the hour and minute
groups. -/
def parseHHMM : List Char → Option (Nat × Nat)
  | [h1, c, m1, m2] =>
    if h1.isDigit && decide (c = ':') && m1.isDigit && m2.isDigit then
      some (h1.toNat - 48, (m1.toNat - 48) * 10 + (m2.toNat - 48))
    else none
  | [h1, h2, c, m1, m2] =>
    if h1.isDigit && h2.isDigit && decide (c = ':') && m1.isDigit && m2.isDigit then
      some ((h1.toNat - 48) * 10 + (h2.toNat - 48), (m1.toNat - 48) * 10 + (m2.toNat - 48))
    else none
  | _ => none

/-- Embedding of `hhmm_to_int` (`bot.py`): parse `"HH:MM"` to `HH*100+MM`,
malformed input yields 0. -/
def hhmm_to_int (s : String) : Nat :=
  match parseHHMM s.data with
  | some (h, m) => h * 100 + m
  | none => 0

/-- Embedding of `in_range` (`bot.py`): window membership with
wrap-past-midnight semantics when the end bound is below the start bound. -/
def in_range (hhmm start_hhmm end_hhmm : String) : Bool :=
  let v := hhmm_to_int hhmm
  let a := hhmm_to_int start_hhmm
  let b := hhmm_to_int end_hhmm
  if a ≤ b then decide (a ≤ v) && decide (v ≤ b)
  else decide (a ≤ v) || decide (v ≤ b)

/-- One element of the list produced by `InfobusClient.extract_times`:
a dict with keys `depart`, `arrive`, `price_eur`, `rating`. -/
structure Offer where
  depart : String
  arrive : String
  price_eur : String
  rating : String
deriving DecidableEq

/-- Embedding of Python's `"|".join` on a list of strings. -/
def joinBar : List String → String
  | [] => ""
  | [x] => x
  | x :: y :: xs => x ++ "|" ++ joinBar (y :: xs)

/-- Rendering of one picked offer inside `hash_times_in_range` (`bot.py`):
the f-string `f"{t['depart']}->{t['arrive']}"`. -/
def render_offer (t : Offer) : String := t.depart ++ "->" ++ t.arrive

/-- Embedding of `hash_times_in_range` (`bot.py`): render each offer whose
depart time lies in the window as `"depart->arrive"` and join with `"|"`. -/
def hash_times_in_range (times : List Offer) (dep_from dep_to : String) : String :=
  joinBar ((times.filter (fun t => in_range t.depart dep_from dep_to)).map render_offer)

/-- A string accepted by the `^(\d{1,2}):(\d{2})$` regex, i.e. a well-formed
`H{1,2}:MM` time. -/
def wellFormedTime (s : String) : Bool := (parseHHMM s.data).isSome

/-- The list `matches` computed per subscription in `checker_loop`
(`bot.py`): offers whose depart time lies in the subscription window. -/
def sub_matches (times : List Offer) (dep_from dep_to : String) : List Offer :=
  times.filter (fun t => in_range t.depart dep_from dep_to)

/-- The flag `has_matches = len(matches) > 0` of `checker_loop`. -/
def has_matches (times : List Offer) (dep_from dep_to : String) : Bool :=
  decide (0 < (sub_matches times dep_from dep_to).length)

/-- The flag `must_periodic_report = has_matches and (now_ts - last_report_ts
>= REPORT_EVERY_SEC)` of `checker_loop`; timestamps are integers. -/
def must_periodic_report (hasM : Bool) (now_ts last_report_ts report_every : Int) : Bool :=
  hasM && decide (report_every ≤ now_ts - last_report_ts)

/-- The flag `is_change = bool(new_hash) and (new_hash != s.last_hash)` of
`checker_loop`; `bool` of a Python string is false exactly on `""`. -/
def is_change_flag (new_hash last_hash : String) : Bool :=
  decide (new_hash ≠ "") && decide (new_hash ≠ last_hash)

/-- The guard `should_send and has_matches` under which `checker_loop`
emits a notification for one subscription in one tick. -/
def should_notify (times : List Offer) (dep_from dep_to last_hash : String)
    (now_ts last_report_ts report_every : Int) : Bool :=
  let new_hash := hash_times_in_range times dep_from dep_to
  let hasM := has_matches times dep_from dep_to
  ((is_change_flag new_hash last_hash ||
    must_periodic_report hasM now_ts last_report_ts report_every) && hasM)

/-- The per-subscription monitoring state persisted by `checker_loop`:
the subscription's `last_hash` column and its `sub:<id>:last_report_ts`
meta entry. -/
structure SubPersist where
  last_hash : String
  last_report_ts : Int
deriving DecidableEq

/-- One subscription's processing in a tick of `checker_loop` (`bot.py`,
the body between computing `new_hash` and the state writes): when the
notification guard holds, the message send is attempted first (`sendOk`
records whether `bot.send_message` succeeded or raised); only after a
successful send is `last_hash` persisted (when the new fingerprint is
non-empty) and `last_report_ts` set to the current time.  A raising send is
caught at the per-subscription boundary, skipping both writes. -/
def tick_sub (times : List Offer) (dep_from dep_to : String) (st : SubPersist)
    (now_ts report_every : Int) (sendOk : Bool) : SubPersist :=
  let new_hash := hash_times_in_range times dep_from dep_to
  if should_notify times dep_from dep_to st.last_hash now_ts st.last_report_ts report_every then
    if sendOk then
      { last_hash := if new_hash ≠ "" then new_hash else st.last_hash,
        last_report_ts := now_ts }
    else st
  else st

/-- Restatement of the notification policy in the words of the spec
(section 4.6): `mustPeriodicReport = hasMatches AND (now - lastReportTimestamp
>= periodicReportInterval)`. -/
def specMustPeriodicReport (hasMatches : Bool) (now lastReport interval : Int) : Bool :=
  hasMatches && decide (interval ≤ now - lastReport)

/-- Restatement in the words of the spec: `isChange = fingerprint non-empty
AND fingerprint != storedFingerprint`. -/
def specIsChange (newFp storedFp : String) : Bool :=
  decide (newFp ≠ "") && decide (newFp ≠ storedFp)

/-- Restatement in the words of the spec:
`shouldNotify = (isChange OR mustPeriodicReport) AND hasMatches`. -/
def specShouldNotify (hasMatches : Bool) (newFp storedFp : String)
    (now lastReport interval : Int) : Bool :=
  (specIsChange newFp storedFp || specMustPeriodicReport hasMatches now lastReport interval)
    && hasMatches

/-- Embedding of the `Subscription` dataclass of `data.py`. -/
structure Subscription where
  id : Int
  user_id : Int
  city_from_id : String
  city_to_id : String
  from_name : String
  to_name : String
  date_str : String
  dep_from_hhmm : String
  dep_to_hhmm : String
  last_hash : String
  created_at : Int
  updated_at : Int
deriving DecidableEq

/-- Embedding of `Storage._data` (`data.py`): the `last_id` counter, the
subscription list and the string-keyed `meta` dictionary. -/
structure StoreData where
  last_id : Int
  subs : List Subscription
  meta : List (String × String)
deriving DecidableEq

/-- Embedding of `Storage.del_sub` (`data.py`): keep every subscription not
matching both the owner and the id, report whether anything was removed,
and write the new list back only in that case. -/
def del_sub (d : StoreData) (user_id sub_id : Int) : StoreData × Bool :=
  let subs2 := d.subs.filter (fun s => decide (¬(s.user_id = user_id ∧ s.id = sub_id)))
  let changed := decide (subs2.length ≠ d.subs.length)
  (if changed then { d with subs := subs2 } else d, changed)

/-- Truthiness of an optional Python string: `not x` holds for `None` and
for the empty string. -/
def optStrFalsy : Option String → Bool
  | none => true
  | some s => decide (s = "")

/-- Embedding of `InfobusClient._auth_is_fresh` (`infobus_client.py`):
false when token or session cookie is missing/empty or the expiry is
unknown; otherwise requires `now + clock_skew_sec < token_exp`. -/
def auth_is_fresh (token phpsessid_cf : Option String) (token_exp : Option Int)
    (now clock_skew_sec : Int) : Bool :=
  if optStrFalsy token || optStrFalsy phpsessid_cf then false
  else
    match token_exp with
    | none => false
    | some e => decide (now + clock_skew_sec < e)

/-- Charwise model of Python's `str.lower` (ASCII names only in this
program). -/
def strLower (s : String) : String := ⟨s.data.map Char.toLower⟩

/-- Charwise model of Python's `str.upper`. -/
def strUpper (s : String) : String := ⟨s.data.map Char.toUpper⟩

/-- Lookup in a cookie jar modelled as an association list: Python's
`key in cookies` / `cookies.get(key)` with exact (case-sensitive) name
comparison, returning the first match. -/
def cookieLookup : List (String × String) → String → Option String
  | [], _ => none
  | (k, v) :: rest, name => if k = name then some v else cookieLookup rest name

/-- Embedding of `InfobusClient._get_cookie_case_insensitive`
(`infobus_client.py`): try the name exactly as given, then its lowercase
form, then its uppercase form; first hit wins. -/
def get_cookie_case_insensitive (jar : List (String × String)) (name : String) : Option String :=
  match cookieLookup jar name with
  | some v => some v
  | none =>
    match cookieLookup jar (strLower name) with
    | some v => some v
    | none => cookieLookup jar (strUpper name)

/-- Outcome of one physical HTTP send inside `_request_with_retries`:
either a response with a status code, or one of the two retried
transport exceptions. -/
inductive TransportOutcome where
  | resp (status : Nat)
  | respTimeout
  | connError
deriving DecidableEq

/-- Whether the outcome is one of the exceptions caught by the retry loop. -/
def TransportOutcome.isFail : TransportOutcome → Bool
  | .resp _ => false
  | .respTimeout => true
  | .connError => true

/-- Result of `_request_with_retries`: a returned response (any status), or
the terminal `RuntimeError` wrapping the last transport exception. -/
inductive ReqResult where
  | ok (status : Nat)
  | exhausted (last_exc : Option TransportOutcome)
deriving DecidableEq

/-- Embedding of the `while attempt < max_retries` loop of
`InfobusClient._request_with_retries` (`infobus_client.py`), started at a
given attempt index.  `send` is the network oracle for each attempt.
Returns the result, the total number of attempts performed, and the list of
backoff delays slept (`backoff_base * 2 ^ attempt`, slept after every failed
attempt including the last one). -/
def request_with_retries_from (send : Nat → TransportOutcome) (backoff_base : ℚ)
    (max_retries attempt : Nat) (last_exc : Option TransportOutcome) :
    ReqResult × Nat × List ℚ :=
  if h : attempt < max_retries then
    match send attempt with
    | .resp s => (.ok s, attempt + 1, [])
    | o =>
      let rest := request_with_retries_from send backoff_base max_retries (attempt + 1) (some o)
      (rest.1, rest.2.1, backoff_base * 2 ^ attempt :: rest.2.2)
  else (.exhausted last_exc, attempt, [])
termination_by max_retries - attempt
decreasing_by omega

/-- Embedding of `InfobusClient._request_with_retries`: the loop starting
from attempt 0 with no exception recorded. -/
def request_with_retries (send : Nat → TransportOutcome) (backoff_base : ℚ)
    (max_retries : Nat) : ReqResult × Nat × List ℚ :=
  request_with_retries_from send backoff_base max_retries 0 none

/-- The mutable authentication triple held by `InfobusClient`. -/
structure AuthState where
  token : Option String
  phpsessid_cf : Option String
  token_exp : Option Int
deriving DecidableEq

/-- Environment of one `get_routes` call: the state installed by the k-th
`refresh_session_and_token` call, and the outcome of the k-th POST to
`/en/script` (`none` models `_request_with_retries` exhausting its transport
retries and raising). Refreshes are modelled as completing and installing
the environment-specified state. -/
structure QueryEnv where
  refreshResult : Nat → AuthState
  sendOutcome : Nat → Option Nat

/-- Result of a `get_routes` call. -/
inductive GetRoutesResult where
  | success (status : Nat)
  | authMissing
  | transportFailure
  | httpError (status : Nat)
deriving DecidableEq

/-- Python's `requests` raises from `raise_for_status()` exactly on 4xx and
5xx status codes. -/
def raisesForStatus (s : Nat) : Bool := decide (400 ≤ s) && decide (s < 600)

/-- Embedding of the control flow of `InfobusClient.get_routes`
(`infobus_client.py`): refresh once when the cached auth is stale; fail with
`RuntimeError` when token or cookie is still missing, without sending; send
the POST; on a 401/403 status refresh once more, rebuild the headers and
resend once; finally `raise_for_status`.  Returns the result together with
the number of refresh calls and the number of POST sends performed. -/
def get_routes_flow (st : AuthState) (env : QueryEnv) (now clock_skew_sec : Int) :
    GetRoutesResult × Nat × Nat :=
  let fresh := auth_is_fresh st.token st.phpsessid_cf st.token_exp now clock_skew_sec
  let st1 := if fresh then st else env.refreshResult 0
  let r1 : Nat := if fresh then 0 else 1
  if optStrFalsy st1.token || optStrFalsy st1.phpsessid_cf then
    (.authMissing, r1, 0)
  else
    match env.sendOutcome 0 with
    | none => (.transportFailure, r1, 1)
    | some s0 =>
      if s0 = 401 ∨ s0 = 403 then
        match env.sendOutcome 1 with
        | none => (.transportFailure, r1 + 1, 2)
        | some s1 =>
          (if raisesForStatus s1 then .httpError s1 else .success s1, r1 + 1, 2)
      else
        (if raisesForStatus s0 then .httpError s0 else .success s0, r1, 1)

/-- Claim C2: `in_range(t, s, e)` is true iff, comparing the `HH*100+MM`
integer values, `parse s ≤ parse t ≤ parse e` when the window does not wrap
(`parse s ≤ parse e`), and `parse t ≥ parse s ∨ parse t ≤ parse e` when it
wraps; a string matching `H{1,2}:MM` parses to `HH*100+MM` and any other
string parses to 0 (the parser is total, never raising). -/
theorem in_range_window_semantics (t s e : String) :
    (in_range t s e = true ↔
      (if hhmm_to_int s ≤ hhmm_to_int e
       then hhmm_to_int s ≤ hhmm_to_int t ∧ hhmm_to_int t ≤ hhmm_to_int e
       else hhmm_to_int s ≤ hhmm_to_int t ∨ hhmm_to_int t ≤ hhmm_to_int e))
    ∧ (∀ h m, parseHHMM t.data = some (h, m) → hhmm_to_int t = h * 100 + m)
    ∧ (parseHHMM t.data = none → hhmm_to_int t = 0) := by
  refine ⟨?_, ?_, ?_⟩
  · by_cases hab : hhmm_to_int s ≤ hhmm_to_int e <;> simp [in_range, hab]
  · intro h m hp
    unfold hhmm_to_int
    rw [hp]
  · intro hp
    unfold hhmm_to_int
    rw [hp]

/-- Concrete instance of C2: `21:00` lies in the window `20:00`–`23:00`, and
the malformed string `"xx"` parses to 0. -/
theorem in_range_window_semantics_witness :
    in_range "21:00" "20:00" "23:00" = true ∧ hhmm_to_int "xx" = 0 := by
  constructor
  · exact (in_range_window_semantics "21:00" "20:00" "23:00").1.mpr (by decide)
  · exact (in_range_window_semantics "xx" "20:00" "23:00").2.2 (by rfl)

/-- Claim C4: the guard under which `checker_loop` emits a notification is
exactly the spec's `(isChange OR mustPeriodicReport) AND hasMatches` with
`mustPeriodicReport = hasMatches AND (now - lastReportTimestamp >=
periodicReportInterval)` and `isChange = fingerprint non-empty AND
fingerprint != stored`; in particular an empty new fingerprint never counts
as a change, whatever the stored value. -/
theorem should_notify_policy (times : List Offer) (dep_from dep_to last_hash : String)
    (now_ts last_report_ts report_every : Int) :
    should_notify times dep_from dep_to last_hash now_ts last_report_ts report_every
      = specShouldNotify (has_matches times dep_from dep_to)
          (hash_times_in_range times dep_from dep_to) last_hash
          now_ts last_report_ts report_every
    ∧ (hash_times_in_range times dep_from dep_to = "" →
        is_change_flag (hash_times_in_range times dep_from dep_to) last_hash = false) := by
  constructor
  · rfl
  · intro h
    simp [is_change_flag, h]

/-- Concrete instance of C4: with no offers the fingerprint is empty and the
change flag is off. -/
theorem should_notify_policy_witness :
    is_change_flag (hash_times_in_range [] "20:00" "23:00") "x" = false :=
  (should_notify_policy [] "20:00" "23:00" "x" 0 0 0).2 (by rfl)

/-- Claim C5: the freshness predicate holds iff the token and the session
cookie are both present (non-`None` and non-empty) and the expiry is known
and `now + skewMargin < expiry`; with skew 60, expiry `now + 30` is stale
and `now + 120` is fresh. -/
theorem auth_is_fresh_characterization (token phpsessid : Option String)
    (token_exp : Option Int) (now clock_skew : Int) :
    (auth_is_fresh token phpsessid token_exp now clock_skew = true ↔
      ((∃ t, token = some t ∧ t ≠ "") ∧ (∃ c, phpsessid = some c ∧ c ≠ "") ∧
       (∃ e, token_exp = some e ∧ now + clock_skew < e)))
    ∧ auth_is_fresh (some "tok") (some "sess") (some (now + 30)) now 60 = false
    ∧ auth_is_fresh (some "tok") (some "sess") (some (now + 120)) now 60 = true := by
  have htok : optStrFalsy (some "tok") = false := by decide
  have hsess : optStrFalsy (some "sess") = false := by decide
  refine ⟨?_, ?_, ?_⟩
  · cases token with
    | none => simp [auth_is_fresh, optStrFalsy]
    | some t =>
      cases phpsessid with
      | none => simp [auth_is_fresh, optStrFalsy]
      | some c =>
        cases token_exp with
        | none =>
          by_cases ht : t = "" <;> by_cases hc : c = "" <;>
            simp [auth_is_fresh, optStrFalsy, ht, hc]
        | some e =>
          by_cases ht : t = "" <;> by_cases hc : c = "" <;>
            simp [auth_is_fresh, optStrFalsy, ht, hc]
  · simp [auth_is_fresh, htok, hsess]
  · simp [auth_is_fresh, htok, hsess]

/-- Concrete instance of C5 at `now = 0`: a session expiring at 120 with
skew 60 is fresh. -/
theorem auth_is_fresh_characterization_witness :
    auth_is_fresh (some "tok") (some "sess") (some (0 + 120)) 0 60 = true :=
  (auth_is_fresh_characterization (some "tok") (some "sess") (some 0) 0 60).2.2

/-- Sample subscriptions for concrete instances. -/
def sampleSub1 : Subscription :=
  ⟨1, 10, "78", "2", "Vilnius", "Minsk", "01.09.2025", "20:00", "23:00", "", 0, 0⟩

/-- Second sample subscription, owned by a different user. -/
def sampleSub2 : Subscription :=
  ⟨2, 20, "2", "78", "Minsk", "Vilnius", "01.09.2025", "08:00", "12:00", "", 0, 0⟩

/-- Claim C10: `del_sub` removes exactly the subscriptions whose owner and
id both match, returns true iff at least one such subscription existed, and
leaves every other subscription, the `last_id` counter and all meta entries
unchanged; in particular a subscription of a different owner is never
removed. -/
theorem del_sub_frame (d : StoreData) (user_id sub_id : Int) :
    ((del_sub d user_id sub_id).1.subs
        = d.subs.filter (fun s => decide (¬(s.user_id = user_id ∧ s.id = sub_id))))
    ∧ (∀ s, s ∈ (del_sub d user_id sub_id).1.subs ↔
        (s ∈ d.subs ∧ ¬(s.user_id = user_id ∧ s.id = sub_id)))
    ∧ ((del_sub d user_id sub_id).2 = true ↔
        ∃ s ∈ d.subs, s.user_id = user_id ∧ s.id = sub_id)
    ∧ (del_sub d user_id sub_id).1.last_id = d.last_id
    ∧ (del_sub d user_id sub_id).1.meta = d.meta
    ∧ (∀ s ∈ d.subs, s.user_id ≠ user_id → s ∈ (del_sub d user_id sub_id).1.subs) := by
  classical
  have hsub : (del_sub d user_id sub_id).1.subs
      = d.subs.filter (fun s => decide (¬(s.user_id = user_id ∧ s.id = sub_id))) := by
    unfold del_sub
    dsimp only
    split
    · rfl
    · next hfalse =>
      rw [decide_eq_true_eq] at hfalse
      have hlen := not_not.mp hfalse
      exact (List.Sublist.eq_of_length (List.filter_sublist _) hlen).symm
  have hkey :
      ((d.subs.filter (fun s => decide (¬(s.user_id = user_id ∧ s.id = sub_id)))).length
        ≠ d.subs.length)
      ↔ ∃ s ∈ d.subs, s.user_id = user_id ∧ s.id = sub_id := by
    constructor
    · intro h
      by_contra hno
      apply h
      have hall : ∀ s ∈ d.subs,
          (fun s : Subscription => decide (¬(s.user_id = user_id ∧ s.id = sub_id))) s
            = true := by
        intro s hs
        rw [decide_eq_true_eq]
        intro hm
        exact hno ⟨s, hs, hm⟩
      rw [List.filter_eq_self.mpr hall]
    · rintro ⟨s, hs, hm⟩ hlen
      have hfix := List.filter_eq_self.mp
        (List.Sublist.eq_of_length (List.filter_sublist _) hlen) s hs
      rw [decide_eq_true_eq] at hfix
      exact hfix hm
  refine ⟨hsub, ?_, ?_, ?_, ?_, ?_⟩
  · intro s
    rw [hsub, List.mem_filter, decide_eq_true_eq]
  · have h2 : (del_sub d user_id sub_id).2
        = decide
          ((d.subs.filter (fun s => decide (¬(s.user_id = user_id ∧ s.id = sub_id)))).length
            ≠ d.subs.length) := rfl
    rw [h2, decide_eq_true_eq]
    exact hkey
  · unfold del_sub
    dsimp only
    split <;> rfl
  · unfold del_sub
    dsimp only
    split <;> rfl
  · intro s hs hneq
    rw [hsub, List.mem_filter]
    refine ⟨hs, ?_⟩
    simp only [decide_eq_true_eq]
    intro hm
    exact hneq hm.1
/-- Concrete instance of C10: deleting subscription 1 of user 10 from a
store also holding a subscription of user 20 succeeds, keeps the other
user's subscription, and leaves counter and meta alone. -/
theorem del_sub_frame_witness :
    (del_sub ⟨5, [sampleSub1, sampleSub2], [("k", "v")]⟩ 10 1).2 = true
    ∧ sampleSub2 ∈ (del_sub ⟨5, [sampleSub1, sampleSub2], [("k", "v")]⟩ 10 1).1.subs
    ∧ (del_sub ⟨5, [sampleSub1, sampleSub2], [("k", "v")]⟩ 10 1).1.last_id = 5 := by
  refine ⟨?_, ?_, ?_⟩
  · exact (del_sub_frame ⟨5, [sampleSub1, sampleSub2], [("k", "v")]⟩ 10 1).2.2.1.mpr
      ⟨sampleSub1, by decide, by decide, by decide⟩
  · exact (del_sub_frame ⟨5, [sampleSub1, sampleSub2], [("k", "v")]⟩ 10 1).2.2.2.2.2
      sampleSub2 (by decide) (by decide)
  · exact (del_sub_frame ⟨5, [sampleSub1, sampleSub2], [("k", "v")]⟩ 10 1).2.2.2.1

/-- Lookup fails on an association-list jar exactly when no entry bears the
requested name. -/
theorem cookieLookup_eq_none_iff (jar : List (String × String)) (k : String) :
    cookieLookup jar k = none ↔ ∀ p ∈ jar, p.1 ≠ k := by
  induction jar with
  | nil => simp [cookieLookup]
  | cons q rest ih =>
    unfold cookieLookup
    by_cases hq : q.1 = k
    · simp [hq]
    · simp [hq, ih]

/-- A successful lookup returns the value of an entry bearing the requested
name. -/
theorem cookieLookup_some_mem (jar : List (String × String)) (k v : String)
    (h : cookieLookup jar k = some v) : ∃ p ∈ jar, p.1 = k ∧ p.2 = v := by
  induction jar with
  | nil => simp [cookieLookup] at h
  | cons q rest ih =>
    unfold cookieLookup at h
    by_cases hq : q.1 = k
    · rw [if_pos hq] at h
      exact ⟨q, List.mem_cons_self q rest, hq, Option.some.inj h⟩
    · rw [if_neg hq] at h
      obtain ⟨p, hp, hk, hv⟩ := ih h
      exact ⟨p, List.mem_cons_of_mem q hp, hk, hv⟩

/-- Counterexample to claim C8: the cookie name `PHPsessid_cf` equals the
target `PHPSESSID_cf` under case-insensitive comparison, yet the lookup
returns nothing, because the code only tries the exact, all-lowercase and
all-uppercase spellings. -/
theorem get_cookie_mixed_case_missed :
    strLower "PHPsessid_cf" = strLower "PHPSESSID_cf"
    ∧ get_cookie_case_insensitive [("PHPsessid_cf", "v")] "PHPSESSID_cf" = none := by
  constructor <;> decide

/-- Claim C8 as amended: the session-cookie lookup finds a value iff the jar
holds an entry named exactly `name`, `name.lower()` or `name.upper()`; any
value returned comes from such an entry, and if no entry bears one of those
three spellings the result is absent. -/
theorem get_cookie_three_spellings (jar : List (String × String)) (name : String) :
    ((∃ v, get_cookie_case_insensitive jar name = some v) ↔
      ∃ p ∈ jar, p.1 = name ∨ p.1 = strLower name ∨ p.1 = strUpper name)
    ∧ (∀ v, get_cookie_case_insensitive jar name = some v →
        ∃ p ∈ jar, (p.1 = name ∨ p.1 = strLower name ∨ p.1 = strUpper name) ∧ p.2 = v)
    ∧ ((∀ p ∈ jar, p.1 ≠ name ∧ p.1 ≠ strLower name ∧ p.1 ≠ strUpper name) →
        get_cookie_case_insensitive jar name = none) := by
  have hval : ∀ v, get_cookie_case_insensitive jar name = some v →
      ∃ p ∈ jar, (p.1 = name ∨ p.1 = strLower name ∨ p.1 = strUpper name) ∧ p.2 = v := by
    intro v h
    unfold get_cookie_case_insensitive at h
    cases h1 : cookieLookup jar name with
    | some w =>
      rw [h1] at h
      injection h with hw
      obtain ⟨p, hp, hk, hv⟩ := cookieLookup_some_mem jar name w h1
      exact ⟨p, hp, Or.inl hk, hw ▸ hv⟩
    | none =>
      rw [h1] at h
      cases h2 : cookieLookup jar (strLower name) with
      | some w =>
        rw [h2] at h
        injection h with hw
        obtain ⟨p, hp, hk, hv⟩ := cookieLookup_some_mem jar (strLower name) w h2
        exact ⟨p, hp, Or.inr (Or.inl hk), hw ▸ hv⟩
      | none =>
        rw [h2] at h
        obtain ⟨p, hp, hk, hv⟩ := cookieLookup_some_mem jar (strUpper name) v h
        exact ⟨p, hp, Or.inr (Or.inr hk), hv⟩
  have hnone : (∀ p ∈ jar, p.1 ≠ name ∧ p.1 ≠ strLower name ∧ p.1 ≠ strUpper name) →
      get_cookie_case_insensitive jar name = none := by
    intro h
    unfold get_cookie_case_insensitive
    rw [(cookieLookup_eq_none_iff jar name).mpr (fun p hp => (h p hp).1),
      (cookieLookup_eq_none_iff jar (strLower name)).mpr (fun p hp => (h p hp).2.1),
      (cookieLookup_eq_none_iff jar (strUpper name)).mpr (fun p hp => (h p hp).2.2)]
  refine ⟨⟨?_, ?_⟩, hval, hnone⟩
  · rintro ⟨v, hv⟩
    obtain ⟨p, hp, hk, _⟩ := hval v hv
    exact ⟨p, hp, hk⟩
  · rintro ⟨p, hp, hk⟩
    cases hres : get_cookie_case_insensitive jar name with
    | some v => exact ⟨v, rfl⟩
    | none =>
      exfalso
      unfold get_cookie_case_insensitive at hres
      cases h1 : cookieLookup jar name with
      | some w => rw [h1] at hres; cases hres
      | none =>
        rw [h1] at hres
        cases h2 : cookieLookup jar (strLower name) with
        | some w => rw [h2] at hres; cases hres
        | none =>
          rw [h2] at hres
          rcases hk with hk | hk | hk
          · exact ((cookieLookup_eq_none_iff jar name).mp h1 p hp) hk
          · exact ((cookieLookup_eq_none_iff jar (strLower name)).mp h2 p hp) hk
          · exact ((cookieLookup_eq_none_iff jar (strUpper name)).mp hres p hp) hk

/-- Concrete instance of the amended C8: an all-lowercase `phpsessid_cf`
cookie is found. -/
theorem get_cookie_three_spellings_witness :
    ∃ v, get_cookie_case_insensitive [("phpsessid_cf", "abc")] "PHPSESSID_cf" = some v :=
  (get_cookie_three_spellings [("phpsessid_cf", "abc")] "PHPSESSID_cf").1.mpr
    ⟨("phpsessid_cf", "abc"), by decide, by decide⟩

/-- The character data of a rendered offer is its depart data, the two
separator characters, then its arrive data. -/
theorem render_offer_data (t : Offer) :
    (render_offer t).data = t.depart.data ++ '-' :: '>' :: t.arrive.data := by
  have harrow : ("->" : String).data = ['-', '>'] := rfl
  show ((t.depart ++ "->") ++ t.arrive).data = _
  rw [String.data_append, String.data_append, harrow, List.append_assoc]
  rfl

/-- Every rendered offer contains the separator dash. -/
theorem dash_mem_render (t : Offer) : '-' ∈ (render_offer t).data := by
  rw [render_offer_data]
  simp

/-- A string with a member character is not empty. -/
theorem string_ne_empty_of_mem {c : Char} {s : String} (h : c ∈ s.data) : s ≠ "" := by
  intro he
  rw [he] at h
  have hnil : ("" : String).data = [] := rfl
  rw [hnil] at h
  exact List.not_mem_nil c h

/-- A rendered offer is never the empty string. -/
theorem render_offer_ne_empty (t : Offer) : render_offer t ≠ "" :=
  string_ne_empty_of_mem (dash_mem_render t)

/-- Joining a list headed by a non-empty string is non-empty. -/
theorem joinBar_cons_ne_empty (x : String) (xs : List String) (hx : x ≠ "") :
    joinBar (x :: xs) ≠ "" := by
  cases xs with
  | nil => simpa [joinBar] using hx
  | cons y ys =>
    have hj : joinBar (x :: y :: ys) = (x ++ "|") ++ joinBar (y :: ys) := by
      simp [joinBar, String.append_assoc]
    apply string_ne_empty_of_mem (c := '|')
    rw [hj, String.data_append, String.data_append]
    have hbar : ("|" : String).data = ['|'] := rfl
    rw [hbar]
    simp

/-- The fingerprint is the empty string exactly when no offer matched the
window. -/
theorem hash_empty_iff (times : List Offer) (dep_from dep_to : String) :
    hash_times_in_range times dep_from dep_to = "" ↔ sub_matches times dep_from dep_to = [] := by
  unfold hash_times_in_range sub_matches
  cases hf : times.filter (fun o => in_range o.depart dep_from dep_to) with
  | nil => simp [joinBar]
  | cons x xs =>
    constructor
    · intro he
      exact absurd he (by
        rw [List.map_cons]
        exact joinBar_cons_ne_empty _ _ (render_offer_ne_empty x))
    · intro hc
      simp at hc
/-- The two offers of the spec's end-to-end scenario. -/
def scenarioOffers : List Offer :=
  [⟨"21:00", "21:45", "8", "4.2"⟩, ⟨"22:30", "23:10", "9", "4.8"⟩]

/-- Counterexample to claim C1: for window `20:00`–`23:00` and offers
departing `21:00` and `22:30`, the computed fingerprint is not
`"22:30->23:10"` (the first offer's depart time also lies in the window). -/
theorem scenario_fingerprint_not_second_only :
    hash_times_in_range scenarioOffers "20:00" "23:00" ≠ "22:30->23:10" := by decide

/-- Claim C1 as amended: both offers match the window `20:00`–`23:00`, so
the fingerprint is `"21:00->21:45|22:30->23:10"`; a later query returning
the same two offers yields that same fingerprint, so no change notification
fires, while a periodic notification fires once `periodicReportInterval`
(here 1800 s) has elapsed since the last report — and not before. -/
theorem scenario_fingerprint_amended :
    hash_times_in_range scenarioOffers "20:00" "23:00" = "21:00->21:45|22:30->23:10"
    ∧ in_range "21:00" "20:00" "23:00" = true
    ∧ is_change_flag (hash_times_in_range scenarioOffers "20:00" "23:00")
        "21:00->21:45|22:30->23:10" = false
    ∧ should_notify scenarioOffers "20:00" "23:00" "21:00->21:45|22:30->23:10"
        2800 1000 1800 = true
    ∧ should_notify scenarioOffers "20:00" "23:00" "21:00->21:45|22:30->23:10"
        2799 1000 1800 = false := by
  refine ⟨by decide, by decide, by decide, by decide, by decide⟩

/-- Claim C9: when the notification send raises, the subscription's stored
fingerprint and last-report timestamp keep their previous values; the state
changes only on a tick that both decided to notify and sent successfully;
and a pending change (non-empty fingerprint differing from the stored one)
keeps triggering the notification decision on any later tick that sees the
same offers. -/
theorem tick_sub_failed_send_keeps_state (times : List Offer) (dep_from dep_to : String)
    (st : SubPersist) (now_ts report_every : Int) :
    tick_sub times dep_from dep_to st now_ts report_every false = st
    ∧ (∀ sendOk, tick_sub times dep_from dep_to st now_ts report_every sendOk ≠ st →
        should_notify times dep_from dep_to st.last_hash now_ts st.last_report_ts report_every
          = true ∧ sendOk = true)
    ∧ (is_change_flag (hash_times_in_range times dep_from dep_to) st.last_hash = true →
        ∀ now2 : Int,
          should_notify times dep_from dep_to st.last_hash now2 st.last_report_ts report_every
            = true) := by
  have hfail : tick_sub times dep_from dep_to st now_ts report_every false = st := by
    unfold tick_sub
    dsimp only
    split <;> simp
  refine ⟨hfail, ?_, ?_⟩
  · intro sendOk hne
    cases hsn : should_notify times dep_from dep_to st.last_hash now_ts st.last_report_ts
        report_every with
    | false =>
      exfalso
      apply hne
      unfold tick_sub
      dsimp only
      rw [hsn]
      simp
    | true =>
      cases sendOk with
      | false => exact absurd hfail hne
      | true => exact ⟨rfl, rfl⟩
  · intro hch now2
    have hne : hash_times_in_range times dep_from dep_to ≠ "" := by
      intro he
      rw [is_change_flag, he] at hch
      simp at hch
    have hmat : sub_matches times dep_from dep_to ≠ [] := by
      intro hm
      exact hne ((hash_empty_iff times dep_from dep_to).mpr hm)
    have hhm : has_matches times dep_from dep_to = true := by
      unfold has_matches
      rw [decide_eq_true_eq]
      exact List.length_pos.mpr hmat
    unfold should_notify
    dsimp only
    rw [hch, hhm]
    rfl

/-- Concrete instance of C9: with a changed non-empty fingerprint and a
failed send, the state survives and the decision still fires later. -/
theorem tick_sub_failed_send_keeps_state_witness :
    tick_sub scenarioOffers "20:00" "23:00" ⟨"", 0⟩ 5000 1800 false = ⟨"", 0⟩
    ∧ should_notify scenarioOffers "20:00" "23:00" "" 9999 0 1800 = true := by
  constructor
  · exact (tick_sub_failed_send_keeps_state scenarioOffers "20:00" "23:00" ⟨"", 0⟩ 5000 1800).1
  · exact (tick_sub_failed_send_keeps_state scenarioOffers "20:00" "23:00" ⟨"", 0⟩ 5000
      1800).2.2 (by decide) 9999

/-- A response on the current attempt is returned immediately, whatever its
status code: the loop never retries on a returned HTTP response. -/
theorem req_from_resp (send : Nat → TransportOutcome) (base : ℚ) (mR attempt : Nat)
    (le : Option TransportOutcome) (s : Nat) (hlt : attempt < mR)
    (hs : send attempt = .resp s) :
    request_with_retries_from send base mR attempt le = (.ok s, attempt + 1, []) := by
  unfold request_with_retries_from
  rw [dif_pos hlt, hs]

/-- A transport failure on the current attempt sleeps `base * 2 ^ attempt`
and continues with the next attempt, recording the exception. -/
theorem req_from_fail (send : Nat → TransportOutcome) (base : ℚ) (mR attempt : Nat)
    (le : Option TransportOutcome) (hlt : attempt < mR)
    (hf : (send attempt).isFail = true) :
    request_with_retries_from send base mR attempt le
      = ((request_with_retries_from send base mR (attempt + 1) (some (send attempt))).1,
         (request_with_retries_from send base mR (attempt + 1) (some (send attempt))).2.1,
         base * 2 ^ attempt ::
           (request_with_retries_from send base mR (attempt + 1) (some (send attempt))).2.2) := by
  cases hs : send attempt with
  | resp s => rw [hs] at hf; simp [TransportOutcome.isFail] at hf
  | respTimeout =>
    conv_lhs => rw [request_with_retries_from]
    rw [dif_pos hlt, hs]
  | connError =>
    conv_lhs => rw [request_with_retries_from]
    rw [dif_pos hlt, hs]

/-- When the first `k` attempts fail in transport and attempt `k` yields a
response, the loop from a given start returns that response after `k + 1`
further attempts, having slept the geometric backoffs of the failed ones. -/
theorem req_from_first_resp (k : Nat) :
    ∀ (send : Nat → TransportOutcome) (base : ℚ) (mR attempt : Nat)
      (le : Option TransportOutcome) (s : Nat),
      attempt + k < mR →
      (∀ j, attempt ≤ j → j < attempt + k → (send j).isFail = true) →
      send (attempt + k) = .resp s →
      request_with_retries_from send base mR attempt le
        = (.ok s, attempt + k + 1, (List.range' attempt k).map (fun i => base * 2 ^ i)) := by
  induction k with
  | zero =>
    intro send base mR attempt le s hlt hfail hresp
    simpa using req_from_resp send base mR attempt le s (by omega) (by simpa using hresp)
  | succ k ih =>
    intro send base mR attempt le s hlt hfail hresp
    have hlt0 : attempt < mR := by omega
    have hfa : (send attempt).isFail = true := hfail attempt le_rfl (by omega)
    rw [req_from_fail send base mR attempt le hlt0 hfa]
    have hrec := ih send base mR (attempt + 1) (some (send attempt)) s (by omega)
      (fun j hj1 hj2 => hfail j (by omega) (by omega))
      (by
        have hidx : attempt + 1 + k = attempt + (k + 1) := by omega
        rw [hidx]
        exact hresp)
    rw [hrec, List.range'_succ attempt k 1, List.map_cons]
    simp only [Prod.mk.injEq]
    refine ⟨?_, ?_, ?_⟩ <;> first | trivial | omega

/-- When every attempt from the current one up to the bound fails in
transport, the loop exhausts the budget, wraps the last exception, and
sleeps one geometric backoff per failed attempt. -/
theorem req_from_all_fail (d : Nat) :
    ∀ (send : Nat → TransportOutcome) (base : ℚ) (mR attempt : Nat)
      (le : Option TransportOutcome),
      mR - attempt = d → attempt ≤ mR →
      (∀ j, attempt ≤ j → j < mR → (send j).isFail = true) →
      request_with_retries_from send base mR attempt le
        = (.exhausted (if attempt = mR then le else some (send (mR - 1))), mR,
           (List.range' attempt (mR - attempt)).map (fun i => base * 2 ^ i)) := by
  induction d with
  | zero =>
    intro send base mR attempt le hd hle hfail
    have heq : attempt = mR := by omega
    subst heq
    unfold request_with_retries_from
    rw [dif_neg (by omega)]
    simp
  | succ k ih =>
    intro send base mR attempt le hd hle hfail
    have hlt : attempt < mR := by omega
    have hfa := hfail attempt le_rfl hlt
    rw [req_from_fail send base mR attempt le hlt hfa]
    rw [ih send base mR (attempt + 1) (some (send attempt)) (by omega) (by omega)
      (fun j h1 h2 => hfail j (by omega) h2)]
    dsimp only
    by_cases hm : attempt + 1 = mR
    · rw [if_pos hm, if_neg (by omega)]
      have h1 : mR - 1 = attempt := by omega
      have h2 : mR - attempt = 1 := by omega
      have h3 : mR - (attempt + 1) = 0 := by omega
      rw [h1, h2, h3]
      simp [List.range']
    · rw [if_neg hm, if_neg (by omega)]
      have h2 : mR - attempt = (mR - (attempt + 1)) + 1 := by omega
      rw [h2, List.range'_succ attempt (mR - (attempt + 1)) 1, List.map_cons]

/-- Claim C7: `_request_with_retries` retries only on transport failures —
a returned response of any status ends the loop at once; when the first `k`
attempts fail and attempt `k` responds, exactly `k + 1` attempts occur with
backoff delays `base * 2 ^ 0 .. base * 2 ^ (k-1)`; when all attempts fail,
exactly `maxRetries` attempts occur before a terminal error wrapping the
last transport exception (4 attempts for `maxRetries = 4`); and for positive
`base` the delay sequence is strictly increasing. -/
theorem request_retry_behavior (send : Nat → TransportOutcome) (base : ℚ) (mR : Nat) :
    (∀ k s, k < mR → (∀ j, j < k → (send j).isFail = true) → send k = .resp s →
      request_with_retries send base mR
        = (.ok s, k + 1, (List.range k).map (fun i => base * 2 ^ i)))
    ∧ ((∀ j, j < mR → (send j).isFail = true) →
      request_with_retries send base mR
        = (.exhausted (if mR = 0 then none else some (send (mR - 1))), mR,
           (List.range mR).map (fun i => base * 2 ^ i)))
    ∧ ((∀ j, j < 4 → (send j).isFail = true) → mR = 4 →
      (request_with_retries send base mR).2.1 = 4
        ∧ (request_with_retries send base mR).1 = .exhausted (some (send 3)))
    ∧ (0 < base →
      ((List.range mR).map (fun i => base * 2 ^ i)).Pairwise (· < ·)) := by
  have hexh : (∀ j, j < mR → (send j).isFail = true) →
      request_with_retries send base mR
        = (.exhausted (if mR = 0 then none else some (send (mR - 1))), mR,
           (List.range mR).map (fun i => base * 2 ^ i)) := by
    intro hfail
    unfold request_with_retries
    rw [req_from_all_fail (mR - 0) send base mR 0 none rfl (by omega)
      (fun j h1 h2 => hfail j h2)]
    rw [List.range_eq_range' mR]
    by_cases h0 : mR = 0
    · subst h0
      simp
    · rw [if_neg (by omega), if_neg h0]
      simp
  refine ⟨?_, hexh, ?_, ?_⟩
  · intro k s hk hfail hresp
    unfold request_with_retries
    rw [req_from_first_resp k send base mR 0 none s (by omega)
      (fun j h1 h2 => hfail j (by omega)) (by simpa using hresp)]
    rw [List.range_eq_range' k]
    simp
  · intro hfail hm4
    subst hm4
    rw [hexh hfail]
    exact ⟨rfl, rfl⟩
  · intro hbase
    have hmono : ∀ i j : Nat, i < j → base * 2 ^ i < base * 2 ^ j := by
      intro i j hij
      have h2 : (2 : ℚ) ^ i < 2 ^ j := by
        apply pow_lt_pow_right₀ (by norm_num) hij
      exact mul_lt_mul_of_pos_left h2 hbase
    exact (List.pairwise_lt_range mR).map (fun i => base * 2 ^ i) (fun a b hab => hmono a b hab)

/-- Concrete instance of C7: with timeouts on every attempt, base 1 and
4 retries, the loop makes 4 attempts, sleeps 1, 2, 4, 8, and fails wrapping
the timeout. -/
theorem request_retry_behavior_witness :
    request_with_retries (fun _ => .respTimeout) 1 4
      = (.exhausted (some .respTimeout), 4, [1, 2, 4, 8]) := by
  have h := (request_retry_behavior (fun _ => .respTimeout) 1 4).2.1 (fun j hj => rfl)
  rw [h]
  norm_num [List.range_succ]

/-- A fresh session necessarily has a non-missing token and cookie. -/
theorem auth_fresh_not_falsy (token php : Option String) (texp : Option Int)
    (now skew : Int) (h : auth_is_fresh token php texp now skew = true) :
    (optStrFalsy token || optStrFalsy php) = false := by
  unfold auth_is_fresh at h
  cases hx : (optStrFalsy token || optStrFalsy php) with
  | false => rfl
  | true =>
    rw [hx] at h
    simp at h

/-- Claim C6: for a query, a stale session causes exactly one refresh before
the request, and a still-missing token or cookie after it aborts with no
send; a 401/403 response causes exactly one further refresh and one resend,
and a second 401/403 is a terminal HTTP error after exactly two sends (one
refresh when the session was fresh, two when it was stale); a non-auth
status never triggers a second send. -/
theorem get_routes_auth_retry (st : AuthState) (env : QueryEnv) (now skew : Int) :
    ((auth_is_fresh st.token st.phpsessid_cf st.token_exp now skew = false ∧
      (optStrFalsy (env.refreshResult 0).token
        || optStrFalsy (env.refreshResult 0).phpsessid_cf) = true) →
      get_routes_flow st env now skew = (.authMissing, 1, 0))
    ∧ (∀ s0 s1,
        auth_is_fresh st.token st.phpsessid_cf st.token_exp now skew = true →
        env.sendOutcome 0 = some s0 → (s0 = 401 ∨ s0 = 403) →
        env.sendOutcome 1 = some s1 → (s1 = 401 ∨ s1 = 403) →
        get_routes_flow st env now skew = (.httpError s1, 1, 2))
    ∧ (∀ s0 s1,
        auth_is_fresh st.token st.phpsessid_cf st.token_exp now skew = false →
        (optStrFalsy (env.refreshResult 0).token
          || optStrFalsy (env.refreshResult 0).phpsessid_cf) = false →
        env.sendOutcome 0 = some s0 → (s0 = 401 ∨ s0 = 403) →
        env.sendOutcome 1 = some s1 → (s1 = 401 ∨ s1 = 403) →
        get_routes_flow st env now skew = (.httpError s1, 2, 2))
    ∧ (∀ s0, env.sendOutcome 0 = some s0 → ¬(s0 = 401 ∨ s0 = 403) →
        (get_routes_flow st env now skew).2.2 ≤ 1)
    ∧ (get_routes_flow st env now skew).2.2 ≤ 2 := by
  refine ⟨?_, ?_, ?_, ?_, ?_⟩
  · rintro ⟨hfresh, hmiss⟩
    simp [get_routes_flow, hfresh, hmiss]
  · intro s0 s1 hfresh h0 h401 h1 h403
    have hnf := auth_fresh_not_falsy st.token st.phpsessid_cf st.token_exp now skew hfresh
    have hrs : raisesForStatus s1 = true := by
      rcases h403 with h | h <;> subst h <;> decide
    simp only [get_routes_flow, hfresh, if_true, hnf, Bool.false_eq_true, if_false, h0, h1]
    rw [if_pos h401, hrs]
    simp
  · intro s0 s1 hfresh hok h0 h401 h1 h403
    have hrs : raisesForStatus s1 = true := by
      rcases h403 with h | h <;> subst h <;> decide
    simp only [get_routes_flow, hfresh, Bool.false_eq_true, if_false, hok, h0, h1]
    rw [if_pos h401, hrs]
    simp
  · intro s0 h0 hnot
    cases hfresh : auth_is_fresh st.token st.phpsessid_cf st.token_exp now skew with
    | true =>
      have hnf := auth_fresh_not_falsy st.token st.phpsessid_cf st.token_exp now skew hfresh
      simp only [get_routes_flow, hfresh, if_true, hnf, Bool.false_eq_true, if_false, h0]
      rw [if_neg hnot]
    | false =>
      cases hm : (optStrFalsy (env.refreshResult 0).token
          || optStrFalsy (env.refreshResult 0).phpsessid_cf) with
      | true => simp [get_routes_flow, hfresh, hm]
      | false =>
        simp only [get_routes_flow, hfresh, Bool.false_eq_true, if_false, hm, h0]
        rw [if_neg hnot]
  · cases hfresh : auth_is_fresh st.token st.phpsessid_cf st.token_exp now skew with
    | true =>
      have hnf := auth_fresh_not_falsy st.token st.phpsessid_cf st.token_exp now skew hfresh
      simp only [get_routes_flow, hfresh, if_true, hnf, Bool.false_eq_true, if_false]
      cases h0 : env.sendOutcome 0 with
      | none => simp
      | some s0 =>
        dsimp only
        by_cases h401 : s0 = 401 ∨ s0 = 403
        · rw [if_pos h401]
          cases h1 : env.sendOutcome 1 with
          | none => simp
          | some s1 => split <;> simp
        · rw [if_neg h401]
          simp
    | false =>
      cases hm : (optStrFalsy (env.refreshResult 0).token
          || optStrFalsy (env.refreshResult 0).phpsessid_cf) with
      | true => simp [get_routes_flow, hfresh, hm]
      | false =>
        simp only [get_routes_flow, hfresh, Bool.false_eq_true, if_false, hm]
        cases h0 : env.sendOutcome 0 with
        | none => simp
        | some s0 =>
          dsimp only
          by_cases h401 : s0 = 401 ∨ s0 = 403
          · rw [if_pos h401]
            cases h1 : env.sendOutcome 1 with
            | none => simp
            | some s1 => split <;> simp
          · rw [if_neg h401]
            simp

/-- Concrete instance of C6: a stale (empty) session whose refresh succeeds,
followed by 401 and then 403, performs two refreshes and two sends and ends
in a terminal HTTP error. -/
theorem get_routes_auth_retry_witness :
    get_routes_flow ⟨none, none, none⟩
      ⟨fun _ => ⟨some "t", some "c", some 100⟩, fun k => if k = 0 then some 401 else some 403⟩
      0 60
      = (.httpError 403, 2, 2) :=
  (get_routes_auth_retry ⟨none, none, none⟩
      ⟨fun _ => ⟨some "t", some "c", some 100⟩, fun k => if k = 0 then some 401 else some 403⟩
      0 60).2.2.1 401 403 (by decide) (by decide) (by rfl) (by decide) (by rfl) (by decide)

/-- Every character of a string accepted by the time regex is a digit or the
colon. -/
theorem parseHHMM_chars : ∀ (l : List Char), (parseHHMM l).isSome = true →
    ∀ c ∈ l, c.isDigit = true ∨ c = ':'
  | [a, b, c, d], h => by
    have hred : parseHHMM [a, b, c, d]
        = if a.isDigit && decide (b = ':') && c.isDigit && d.isDigit then
            some (a.toNat - 48, (c.toNat - 48) * 10 + (d.toNat - 48))
          else none := rfl
    rw [hred] at h
    split at h
    · next hcond =>
      simp only [Bool.and_eq_true, decide_eq_true_eq] at hcond
      intro x hx
      simp only [List.mem_cons, List.not_mem_nil, or_false] at hx
      rcases hx with rfl | rfl | rfl | rfl
      · exact Or.inl hcond.1.1.1
      · exact Or.inr hcond.1.1.2
      · exact Or.inl hcond.1.2
      · exact Or.inl hcond.2
    · exact Bool.noConfusion h
  | [a, b, c, d, e], h => by
    have hred : parseHHMM [a, b, c, d, e]
        = if a.isDigit && b.isDigit && decide (c = ':') && d.isDigit && e.isDigit then
            some ((a.toNat - 48) * 10 + (b.toNat - 48), (d.toNat - 48) * 10 + (e.toNat - 48))
          else none := rfl
    rw [hred] at h
    split at h
    · next hcond =>
      simp only [Bool.and_eq_true, decide_eq_true_eq] at hcond
      intro x hx
      simp only [List.mem_cons, List.not_mem_nil, or_false] at hx
      rcases hx with rfl | rfl | rfl | rfl | rfl
      · exact Or.inl hcond.1.1.1.1
      · exact Or.inl hcond.1.1.1.2
      · exact Or.inr hcond.1.1.2
      · exact Or.inl hcond.1.2
      · exact Or.inl hcond.2
    · exact Bool.noConfusion h
  | [], h => by exact Bool.noConfusion h
  | [a], h => by exact Bool.noConfusion h
  | [a, b], h => by exact Bool.noConfusion h
  | [a, b, c], h => by exact Bool.noConfusion h
  | a :: b :: c :: d :: e :: f :: tl, h => by exact Bool.noConfusion h

/-- A digit or colon is neither the dash nor the bar separator. -/
theorem char_good_not_sep {c : Char} (h : c.isDigit = true ∨ c = ':') :
    c ≠ '-' ∧ c ≠ '|' := by
  constructor <;> intro he <;> subst he <;> rcases h with h | h <;> revert h <;> decide

/-- A well-formed time string contains no dash and no bar and is not empty. -/
theorem wellFormed_props {s : String} (h : wellFormedTime s = true) :
    '-' ∉ s.data ∧ '|' ∉ s.data ∧ s.data ≠ [] := by
  refine ⟨?_, ?_, ?_⟩
  · intro hm
    exact (char_good_not_sep (parseHHMM_chars s.data h '-' hm)).1 rfl
  · intro hm
    exact (char_good_not_sep (parseHHMM_chars s.data h '|' hm)).2 rfl
  · intro hn
    unfold wellFormedTime at h
    rw [hn] at h
    exact Bool.noConfusion h

/-- Splitting an appended list at a character absent from both prefixes is
unambiguous. -/
theorem append_cons_inj {c : Char} : ∀ {p1 : List Char} {p2 s1 s2 : List Char}, c ∉ p1 → c ∉ p2 →
    p1 ++ c :: s1 = p2 ++ c :: s2 → p1 = p2 ∧ s1 = s2 := by
  intro p1
  induction p1 with
  | nil =>
    intro p2 s1 s2 h1 h2 h
    cases p2 with
    | nil => simpa using h
    | cons b p2' =>
      exfalso
      simp only [List.nil_append, List.cons_append, List.cons.injEq] at h
      apply h2
      rw [h.1]
      exact List.mem_cons_self b p2'
  | cons a p1' ih =>
    intro p2 s1 s2 h1 h2 h
    cases p2 with
    | nil =>
      exfalso
      simp only [List.nil_append, List.cons_append, List.cons.injEq] at h
      apply h1
      rw [← h.1]
      exact List.mem_cons_self a p1'
    | cons b p2' =>
      simp only [List.cons_append, List.cons.injEq] at h
      have hn1 : c ∉ p1' := fun hm => h1 (List.mem_cons_of_mem a hm)
      have hn2 : c ∉ p2' := fun hm => h2 (List.mem_cons_of_mem b hm)
      obtain ⟨hp, hs⟩ := ih hn1 hn2 h.2
      refine ⟨?_, hs⟩
      rw [h.1, hp]

/-- Character-level counterpart of `joinBar`. -/
def charJoin : List (List Char) → List Char
  | [] => []
  | [x] => x
  | x :: y :: xs => x ++ '|' :: charJoin (y :: xs)

/-- The character data of a bar-join is the bar-join of the data. -/
theorem joinBar_data : ∀ xs : List String, (joinBar xs).data = charJoin (xs.map String.data)
  | [] => rfl
  | [x] => rfl
  | x :: y :: xs => by
    show ((x ++ "|") ++ joinBar (y :: xs)).data
      = x.data ++ '|' :: charJoin ((y :: xs).map String.data)
    rw [String.data_append, String.data_append, joinBar_data (y :: xs)]
    have hbar : ("|" : String).data = ['|'] := rfl
    rw [hbar, List.append_assoc]
    rfl

/-- A bar-join of non-empty bar-free character blocks determines the
blocks. -/
theorem charJoin_inj : ∀ (xs ys : List (List Char)),
    (∀ x ∈ xs, x ≠ [] ∧ '|' ∉ x) → (∀ y ∈ ys, y ≠ [] ∧ '|' ∉ y) →
    charJoin xs = charJoin ys → xs = ys := by
  intro xs
  induction xs with
  | nil =>
    intro ys _ hys h
    cases ys with
    | nil => rfl
    | cons y ys' =>
      exfalso
      cases ys' with
      | nil => exact (hys y (List.mem_cons_self y [])).1 h.symm
      | cons z zs =>
        have h2 := h.symm
        simp [charJoin] at h2
  | cons x xs' ih =>
    intro ys hxs hys h
    cases ys with
    | nil =>
      exfalso
      cases xs' with
      | nil => exact (hxs x (List.mem_cons_self x [])).1 h
      | cons w ws => simp [charJoin] at h
    | cons y ys' =>
      cases xs' with
      | nil =>
        cases ys' with
        | nil =>
          have hxy : x = y := h
          rw [hxy]
        | cons z zs =>
          exfalso
          have hbar : ('|' : Char) ∈ x := by
            have hx : x = y ++ '|' :: charJoin (z :: zs) := h
            rw [hx]
            exact List.mem_append_right y (List.mem_cons_self _ _)
          exact (hxs x (List.mem_cons_self x [])).2 hbar
      | cons w ws =>
        cases ys' with
        | nil =>
          exfalso
          have hbar : ('|' : Char) ∈ y := by
            have hy : y = x ++ '|' :: charJoin (w :: ws) := h.symm
            rw [hy]
            exact List.mem_append_right x (List.mem_cons_self _ _)
          exact (hys y (List.mem_cons_self y [])).2 hbar
        | cons z zs =>
          have hsplit : x ++ '|' :: charJoin (w :: ws) = y ++ '|' :: charJoin (z :: zs) := h
          obtain ⟨hxy, hrest⟩ := append_cons_inj (hxs x (List.mem_cons_self x _)).2
            (hys y (List.mem_cons_self y _)).2 hsplit
          have hsub := ih (z :: zs) (fun a ha => hxs a (List.mem_cons_of_mem x ha))
            (fun a ha => hys a (List.mem_cons_of_mem y ha)) hrest
          rw [hxy, hsub]

/-- A bar-join of non-empty bar-free strings determines the strings. -/
theorem joinBar_inj (xs ys : List String)
    (hxs : ∀ x ∈ xs, x ≠ "" ∧ '|' ∉ x.data) (hys : ∀ y ∈ ys, y ≠ "" ∧ '|' ∉ y.data)
    (h : joinBar xs = joinBar ys) : xs = ys := by
  have hdata : charJoin (xs.map String.data) = charJoin (ys.map String.data) := by
    rw [← joinBar_data, ← joinBar_data, h]
  have hblocks : ∀ (l : List String), (∀ x ∈ l, x ≠ "" ∧ '|' ∉ x.data) →
      ∀ b ∈ l.map String.data, b ≠ [] ∧ '|' ∉ b := by
    intro l hl b hb
    obtain ⟨x, hx, rfl⟩ := List.mem_map.mp hb
    refine ⟨?_, (hl x hx).2⟩
    intro hnil
    apply (hl x hx).1
    exact String.ext hnil
  have hmap := charJoin_inj (xs.map String.data) (ys.map String.data)
    (hblocks xs hxs) (hblocks ys hys) hdata
  exact List.map_injective_iff.mpr (fun a b hab => String.ext hab) hmap

/-- When the depart times are well-formed, a rendered offer determines the
(depart, arrive) pair. -/
theorem render_inj_wf {o1 o2 : Offer}
    (h1 : wellFormedTime o1.depart = true) (h2 : wellFormedTime o2.depart = true)
    (h : render_offer o1 = render_offer o2) :
    o1.depart = o2.depart ∧ o1.arrive = o2.arrive := by
  have hd : (render_offer o1).data = (render_offer o2).data := by rw [h]
  rw [render_offer_data, render_offer_data] at hd
  obtain ⟨hdep, harr⟩ := append_cons_inj (wellFormed_props h1).1 (wellFormed_props h2).1 hd
  refine ⟨String.ext hdep, String.ext ?_⟩
  injection harr

/-- With well-formed times a rendered offer is a non-empty bar-free
string. -/
theorem render_seg_props {o : Offer} (hd : wellFormedTime o.depart = true)
    (ha : wellFormedTime o.arrive = true) :
    render_offer o ≠ "" ∧ '|' ∉ (render_offer o).data := by
  refine ⟨render_offer_ne_empty o, ?_⟩
  rw [render_offer_data]
  intro hm
  rcases List.mem_append.mp hm with hm | hm
  · exact (wellFormed_props hd).2.1 hm
  · simp only [List.mem_cons] at hm
    rcases hm with hm | hm | hm
    · exact absurd hm (by decide)
    · exact absurd hm (by decide)
    · exact (wellFormed_props ha).2.1 hm

/-- Equal rendered sequences of well-formed offers have equal
(depart, arrive) sequences. -/
theorem map_render_eq_to_pairs : ∀ (l1 l2 : List Offer),
    (∀ o ∈ l1, wellFormedTime o.depart = true ∧ wellFormedTime o.arrive = true) →
    (∀ o ∈ l2, wellFormedTime o.depart = true ∧ wellFormedTime o.arrive = true) →
    l1.map render_offer = l2.map render_offer →
    l1.map (fun o => (o.depart, o.arrive)) = l2.map (fun o => (o.depart, o.arrive)) := by
  intro l1
  induction l1 with
  | nil =>
    intro l2 _ _ h
    cases l2 with
    | nil => rfl
    | cons b l2' => simp at h
  | cons a l1' ih =>
    intro l2 hw1 hw2 h
    cases l2 with
    | nil => simp at h
    | cons b l2' =>
      simp only [List.map_cons, List.cons.injEq] at h ⊢
      obtain ⟨hdep, harr⟩ := render_inj_wf (hw1 a (List.mem_cons_self a l1')).1
        (hw2 b (List.mem_cons_self b l2')).1 h.1
      refine ⟨by rw [hdep, harr], ?_⟩
      exact ih l2' (fun o ho => hw1 o (List.mem_cons_of_mem a ho))
        (fun o ho => hw2 o (List.mem_cons_of_mem b ho)) h.2

/-- Counterexample to claim C3: over arbitrary offer strings the fingerprint
is not injective — a single offer whose arrive text contains the separators
collides with a two-offer list, although the matching sequences differ. -/
theorem fingerprint_collision :
    hash_times_in_range [⟨"a", "b|c->d", "", ""⟩] "00:00" "23:59"
      = hash_times_in_range [⟨"a", "b", "", ""⟩, ⟨"c", "d", "", ""⟩] "00:00" "23:59"
    ∧ (sub_matches [⟨"a", "b|c->d", "", ""⟩] "00:00" "23:59").map
        (fun o => (o.depart, o.arrive))
      ≠ (sub_matches [⟨"a", "b", "", ""⟩, ⟨"c", "d", "", ""⟩] "00:00" "23:59").map
        (fun o => (o.depart, o.arrive)) := by
  constructor <;> decide

/-- Claim C3 as amended: provided every offer's depart and arrive strings
are well-formed `H{1,2}:MM` times, two offer lists produce equal
fingerprints for a window iff their window-matching offers have equal
(depart, arrive) sequences — same offers, same order — so the fingerprint
is deterministic and order-sensitive there; and (unconditionally) the
fingerprint is empty iff no offer matches the window. -/
theorem fingerprint_eq_iff_pairs (ts1 ts2 : List Offer) (dep_from dep_to : String)
    (h1 : ∀ o ∈ ts1, wellFormedTime o.depart = true ∧ wellFormedTime o.arrive = true)
    (h2 : ∀ o ∈ ts2, wellFormedTime o.depart = true ∧ wellFormedTime o.arrive = true) :
    (hash_times_in_range ts1 dep_from dep_to = hash_times_in_range ts2 dep_from dep_to ↔
      (sub_matches ts1 dep_from dep_to).map (fun o => (o.depart, o.arrive))
        = (sub_matches ts2 dep_from dep_to).map (fun o => (o.depart, o.arrive)))
    ∧ (hash_times_in_range ts1 dep_from dep_to = "" ↔
        sub_matches ts1 dep_from dep_to = []) := by
  have hm1 : ∀ o ∈ sub_matches ts1 dep_from dep_to,
      wellFormedTime o.depart = true ∧ wellFormedTime o.arrive = true :=
    fun o ho => h1 o (List.mem_of_mem_filter ho)
  have hm2 : ∀ o ∈ sub_matches ts2 dep_from dep_to,
      wellFormedTime o.depart = true ∧ wellFormedTime o.arrive = true :=
    fun o ho => h2 o (List.mem_of_mem_filter ho)
  refine ⟨⟨?_, ?_⟩, hash_empty_iff ts1 dep_from dep_to⟩
  · intro h
    have hseg : (sub_matches ts1 dep_from dep_to).map render_offer
        = (sub_matches ts2 dep_from dep_to).map render_offer := by
      apply joinBar_inj
      · intro x hx
        obtain ⟨o, ho, rfl⟩ := List.mem_map.mp hx
        exact render_seg_props (hm1 o ho).1 (hm1 o ho).2
      · intro x hx
        obtain ⟨o, ho, rfl⟩ := List.mem_map.mp hx
        exact render_seg_props (hm2 o ho).1 (hm2 o ho).2
      · exact h
    exact map_render_eq_to_pairs _ _ hm1 hm2 hseg
  · intro h
    have hfac : ∀ (l : List Offer), l.map render_offer
        = (l.map (fun o => (o.depart, o.arrive))).map (fun p => p.1 ++ "->" ++ p.2) := by
      intro l
      rw [List.map_map]
      rfl
    show joinBar ((sub_matches ts1 dep_from dep_to).map render_offer)
      = joinBar ((sub_matches ts2 dep_from dep_to).map render_offer)
    rw [hfac, hfac, h]

/-- Concrete instance of the amended C3: two offer lists with the same times
but different prices and ratings produce equal fingerprints, hence equal
(depart, arrive) sequences. -/
theorem fingerprint_eq_iff_pairs_witness :
    (sub_matches [⟨"21:00", "21:45", "10", "4"⟩] "20:00" "23:00").map
        (fun o => (o.depart, o.arrive))
      = (sub_matches [⟨"21:00", "21:45", "99", "1"⟩] "20:00" "23:00").map
        (fun o => (o.depart, o.arrive)) :=
  (fingerprint_eq_iff_pairs [⟨"21:00", "21:45", "10", "4"⟩] [⟨"21:00", "21:45", "99", "1"⟩]
    "20:00" "23:00" (by decide) (by decide)).1.mp (by decide)
